import Mathlib

/-!
Verification of the Flux request-orchestration and compatibility engine.

This file gives a shallow embedding, in Lean 4, of the core logic of the
Flux repository and proves (or refutes) the specification claims about it:

* the Camelot-wheel compatibility scorer and the greedy sequence builder
  (`calculateCompatibilityScore`, `findBestMatch`, `createSequence` from the
  harmonic-mixer code);
* the analysis provider's key selection and compatibility table (the
  Yandex cloud function handler);
* the API service's retry loop (`_makeApiRequest`), TTL cache
  (`_getFromCache` / `_addToCache`), cache-key derivation
  (`_generateCacheKey`, via `btoa`), and the request de-duplication logic
  of `analyzeAudio`.

JavaScript numbers are modelled as exact rationals (`ℚ`); the only
floating-point effects in scope are well below the scales the claims use.
JavaScript's falsy-default idiom `x || d` (which replaces both `undefined`
and `0` by `d`) is modelled by `jsOr`; `Math.round` (round half toward
positive infinity) by `jsRound`.
-/

namespace Flux

/-- JavaScript `x || d` on an optional number: `undefined` and `0` are falsy. -/
def jsOr (x : Option ℚ) (d : ℚ) : ℚ :=
  match x with
  | none => d
  | some v => if v = 0 then d else v

/-- JavaScript `Math.round`: round half toward positive infinity. -/
def jsRound (q : ℚ) : ℤ := ⌊q + 1/2⌋

/-! ## Harmonic mixer (source: `scripts/generate-icons.js`, `HarmonicMixer`) -/

/-- The analysis payload fields read by the harmonic mixer.  Every field is
optional because the JavaScript code defends each read with a falsy default. -/
structure Analysis where
  bpm : Option ℚ
  energy : Option ℚ
  loudness : Option ℚ
  camelot : Option String
  compatibleKeys : Option (List String)
  deriving DecidableEq, Repr

/-- The empty analysis object `{}` used by `track.analysis || {}`. -/
def emptyAnalysis : Analysis := ⟨none, none, none, none, none⟩

/-- A track as seen by the mixer: an identity plus an optional analysis. -/
structure Track where
  id : Nat
  analysis : Option Analysis
  deriving DecidableEq, Repr

/-- Placeholder track used only as the (unreachable) default of `List.getD`. -/
def dummyTrack : Track := ⟨0, none⟩

/-- Embedding of `HarmonicMixer.calculateCompatibilityScore`:
40 points for a Camelot match, plus linearly decaying tempo (30), energy (20)
and loudness (10) terms, rounded with `Math.round`. -/
def calculateCompatibilityScore (a b : Analysis) : ℤ :=
  let camelotMatch : Bool :=
    match a.compatibleKeys, b.camelot with
    | some ks, some c => ks.contains c
    | _, _ => false
  let keyScore : ℚ := if camelotMatch then 40 else 0
  let bpmDiff : ℚ := |jsOr a.bpm 120 - jsOr b.bpm 120|
  let bpmScore : ℚ := max 0 (30 - bpmDiff * (3/10))
  let energyDiff : ℚ := |jsOr a.energy (1/2) - jsOr b.energy (1/2)|
  let energyScore : ℚ := max 0 (20 - energyDiff * 40)
  let loudnessDiff : ℚ := |jsOr a.loudness (-20) - jsOr b.loudness (-20)|
  let loudnessScore : ℚ := max 0 (10 - loudnessDiff * (1/2))
  jsRound (keyScore + bpmScore + energyScore + loudnessScore)

/-- Score between two tracks: the mixer reads `track.analysis || {}`. -/
def trackPairScore (cur cand : Track) : ℤ :=
  calculateCompatibilityScore (cur.analysis.getD emptyAnalysis)
    (cand.analysis.getD emptyAnalysis)

/-- The `for` loop of `findBestMatch`: running best score `bs` and best
index `bi` (both start at `-1`), updated when a candidate's score is
strictly greater than the running best. -/
def findBestAux (cur : Track) : List Track → Nat → Int → Int → Int × Int
  | [], _, bs, bi => (bs, bi)
  | c :: cs, i, bs, bi =>
    let s := trackPairScore cur c
    if bs < s then findBestAux cur cs (i + 1) s (i : Int)
    else findBestAux cur cs (i + 1) bs bi

/-- Embedding of `HarmonicMixer.findBestMatch`: returns the best-scoring
candidate together with its index when `bestIndex >= 0 && bestScore > 50`. -/
def findBestMatch (cur : Track) (cands : List Track) : Option (Track × Nat) :=
  let r := findBestAux cur cands 0 (-1) (-1)
  if 0 ≤ r.2 ∧ 50 < r.1 then some (cands.getD r.2.toNat dummyTrack, r.2.toNat)
  else none

/-- The sort key used by `createSequence`: `a.analysis?.energy || 0.5`. -/
def trackSortEnergy (t : Track) : ℚ := jsOr (t.analysis.bind Analysis.energy) (1/2)

/-- The `while (remaining.length > 0)` loop of `createSequence`.  Each
iteration removes exactly one element from `remaining` (either the best
match via `splice`, or the head via `shift`), so the loop runs exactly
`remaining.length` times; `fuel` is initialised to that length and the
fuel-exhausted branch is unreachable. -/
def seqLoopFuel : Nat → Track → List Track → List Track
  | 0, _, _ => []
  | _ + 1, _, [] => []
  | fuel + 1, last, r0 :: rest =>
    match findBestMatch last (r0 :: rest) with
    | some (t, i) => t :: seqLoopFuel fuel t ((r0 :: rest).eraseIdx i)
    | none => r0 :: seqLoopFuel fuel r0 rest

/-- Embedding of `HarmonicMixer.createSequence`: fewer than two tracks are
returned unchanged; otherwise the tracks are stably sorted ascending by
energy (JavaScript's `Array.prototype.sort` is stable; insertion sort is the
canonical stable sort), the first seeds the sequence, and the greedy loop
consumes the rest. -/
def createSequence (tracks : List Track) : List Track :=
  if tracks.length < 2 then tracks
  else
    match List.insertionSort (fun a b => trackSortEnergy a ≤ trackSortEnergy b) tracks with
    | [] => []
    | s0 :: srest => s0 :: seqLoopFuel srest.length s0 srest

/-! ## Analysis provider (source: the cloud-function `handler`) -/

/-- The ten `(key, camelot)` pairs of the handler's `keys` array, in order. -/
def providerKeys : List (String × String) :=
  [("C", "8B"), ("Am", "8A"), ("G", "9B"), ("Em", "9A"), ("D", "10B"),
   ("Bm", "10A"), ("A", "11B"), ("F#m", "11A"), ("E", "12B"), ("C#m", "12A")]

/-- The handler's `camelotWheel` compatibility table (twelve entries). -/
def providerCamelotWheel : List (String × List String) :=
  [("8A", ["8A", "7A", "9A", "8B", "7B", "9B"]),
   ("8B", ["8B", "7B", "9B", "8A", "7A", "9A"]),
   ("9A", ["9A", "8A", "10A", "9B", "8B", "10B"]),
   ("9B", ["9B", "8B", "10B", "9A", "8A", "10A"]),
   ("10A", ["10A", "9A", "11A", "10B", "9B", "11B"]),
   ("10B", ["10B", "9B", "11B", "10A", "9A", "11A"]),
   ("11A", ["11A", "10A", "12A", "11B", "10B", "12B"]),
   ("11B", ["11B", "10B", "12B", "11A", "10A", "12A"]),
   ("12A", ["12A", "11A", "1A", "12B", "11B", "1B"]),
   ("12B", ["12B", "11B", "1B", "12A", "11A", "1A"]),
   ("1A", ["1A", "12A", "2A", "1B", "12B", "2B"]),
   ("1B", ["1B", "12B", "2B", "1A", "12A", "2A"])]

/-- The camelot code the handler selects: `keys[hashInt % keys.length].camelot`. -/
def providerCamelot (hashInt : Nat) : String :=
  ((providerKeys.getD (hashInt % providerKeys.length) ("C", "8B")).2)

/-- The handler's `compatibleKeys`:
`camelotWheel[selectedKey.camelot] || [selectedKey.camelot]`. -/
def providerCompatibleKeys (hashInt : Nat) : List String :=
  (providerCamelotWheel.lookup (providerCamelot hashInt)).getD [providerCamelot hashInt]

/-- Numeric position one step up on the Camelot wheel (12 wraps to 1). -/
def camelotUp (n : Nat) : Nat := n % 12 + 1

/-- Numeric position one step down on the Camelot wheel (1 wraps to 12). -/
def camelotDown (n : Nat) : Nat := (n + 10) % 12 + 1

/-- Render a wheel position as a camelot code string. -/
def camelotCode (n : Nat) (letterA : Bool) : String :=
  toString n ++ (if letterA then "A" else "B")

/-- The adjacency rule exactly as the specification words it: the code
itself, the same-letter codes one numeric step up and down, and the paired
letter at the same numeric position. -/
def specAdjacencyKeys (n : Nat) (letterA : Bool) : List String :=
  [camelotCode n letterA, camelotCode (camelotDown n) letterA,
   camelotCode (camelotUp n) letterA, camelotCode n (!letterA)]

/-- The extended adjacency rule the handler's table actually implements:
the spec rule plus the paired letter's own one-step neighbours. -/
def extendedAdjacencyKeys (n : Nat) (letterA : Bool) : List String :=
  [camelotCode n letterA, camelotCode (camelotDown n) letterA,
   camelotCode (camelotUp n) letterA, camelotCode n (!letterA),
   camelotCode (camelotDown n) (!letterA), camelotCode (camelotUp n) (!letterA)]

/-- Parse a camelot code back into its wheel position, via the 24-entry table. -/
def parseCamelot (c : String) : Option (Nat × Bool) :=
  (((List.range 12).map fun k =>
      [(camelotCode (k + 1) true, ((k + 1 : Nat), true)),
       (camelotCode (k + 1) false, ((k + 1 : Nat), false))]).flatten).lookup c

/-! ## Retry loop (source: `frontend/api-service.js`, `_makeApiRequest`)

One `fetch` attempt ends in one of four ways, scripted per attempt number:
the abort controller fired (`AbortError`), the response parsed to a valid
object, the response was malformed (not JSON or not an object), the
response had a non-ok HTTP status, or `fetch` itself rejected with an
ordinary network-level error. -/

/-- Outcome of one `fetch` attempt. -/
inductive FetchOutcome (α : Type) where
  | abort : FetchOutcome α
  | ok (r : α) : FetchOutcome α
  | malformed : FetchOutcome α
  | httpError (status : Nat) : FetchOutcome α
  | fetchFail : FetchOutcome α
  deriving DecidableEq, Repr

/-- The error values `_makeApiRequest` can throw, one per `ERRORS` constant
it uses (plus the raw rejection of a failed `fetch`). -/
inductive ApiError where
  | networkError
  | timeoutError
  | rateLimited
  | apiUnavailable
  | httpStatus (status : Nat)
  | invalidResponse
  | fetchFailed
  deriving DecidableEq, Repr

/-- The `while (attempts < maxAttempts)` loop of `_makeApiRequest`.
`attempt` counts completed attempts, `fuel` the attempts still allowed,
`lastErr` mirrors `lastError`.  Inside the `try`: the offline check throws
`NETWORK_ERROR` (rethrown by the catch, terminal); an `AbortError` becomes
`TIMEOUT_ERROR` (thrown by the catch, terminal); every other failure is
recorded and retried after backoff.  Returns the result together with the
number of attempts made. -/
def attemptLoop (script : Nat → FetchOutcome α) (isOnline : Bool) :
    Nat → Nat → Option ApiError → Except ApiError α × Nat
  | attempt, 0, lastErr => (.error (lastErr.getD .fetchFailed), attempt)
  | attempt, fuel + 1, _lastErr =>
    if isOnline then
      match script attempt with
      | .ok r => (.ok r, attempt + 1)
      | .abort => (.error .timeoutError, attempt + 1)
      | .malformed => attemptLoop script isOnline (attempt + 1) fuel (some .invalidResponse)
      | .httpError s =>
        let e : ApiError :=
          if s = 429 then .rateLimited else if 500 ≤ s then .apiUnavailable else .httpStatus s
        attemptLoop script isOnline (attempt + 1) fuel (some e)
      | .fetchFail => attemptLoop script isOnline (attempt + 1) fuel (some .fetchFailed)
    else (.error .networkError, attempt + 1)

/-- Embedding of `_makeApiRequest`: `maxAttempts = retry ? RETRY_ATTEMPTS + 1 : 1`. -/
def makeApiRequest (isOnline retry : Bool) (retryAttempts : Nat)
    (script : Nat → FetchOutcome α) : Except ApiError α × Nat :=
  attemptLoop script isOnline 0 (if retry then retryAttempts + 1 else 1) none

/-! ## Cache (source: `frontend/api-service.js`, `_getFromCache` / `_addToCache`)

`this.cache` is a JavaScript `Map`, modelled as an insertion-ordered
association list: `Map.prototype.set` overwrites an existing key in place
and appends a fresh key at the end; `Map.prototype.delete` removes every
binding of the key; `Map.prototype.keys().next().value` is the first key. -/

/-- A cache entry as built by `_addToCache`. -/
structure CacheEntry (α : Type) where
  data : α
  cachedAt : Nat
  expiresAt : Option Nat
  deriving DecidableEq, Repr

/-- The cache: a `Map` in insertion order. -/
abbrev Cache (α : Type) := List (String × CacheEntry α)

/-- `Map.prototype.set`: overwrite in place, or append a fresh key. -/
def mapSet (c : Cache α) (k : String) (v : CacheEntry α) : Cache α :=
  if (c.lookup k).isSome then c.map (fun p => if p.1 = k then (k, v) else p)
  else c ++ [(k, v)]

/-- `Map.prototype.delete`. -/
def mapDelete (c : Cache α) (k : String) : Cache α :=
  c.filter (fun p => p.1 ≠ k)

/-- Embedding of `_getFromCache`: absent keys and lazily-expired entries
yield `none`; an expired entry is deleted by the lookup.  The expiry test
is `entry.expiresAt && Date.now() > entry.expiresAt`, so a `null` (and,
vacuously, a zero) `expiresAt` never expires.  Returns the possibly-updated
cache together with the result. -/
def getFromCache (now : Nat) (c : Cache α) (key : String) : Cache α × Option α :=
  match c.lookup key with
  | none => (c, none)
  | some e =>
    match e.expiresAt with
    | some t => if t ≠ 0 ∧ t < now then (mapDelete c key, none) else (c, some e.data)
    | none => (c, some e.data)

/-- Embedding of `_addToCache`: when `cache.size >= MAX_CACHE_ENTRIES` the
first (oldest-inserted) key is deleted, then the entry is stored with
`expiresAt = ttl ? now + ttl : null` (a falsy ttl means no expiry). -/
def addToCache (maxEntries : Nat) (now : Nat) (c : Cache α) (key : String)
    (data : α) (ttl : Option Nat) : Cache α :=
  let c1 :=
    if maxEntries ≤ c.length then
      match c with
      | [] => c
      | (k0, _) :: _ => mapDelete c k0
    else c
  let expiresAt : Option Nat :=
    match ttl with
    | some t => if t ≠ 0 then some (now + t) else none
    | none => none
  mapSet c1 key ⟨data, now, expiresAt⟩

/-- `SETTINGS.MAX_CACHE_ENTRIES` from the configuration. -/
def MAX_CACHE_ENTRIES : Nat := 50

/-- `SETTINGS.RETRY_ATTEMPTS` from the configuration. -/
def RETRY_ATTEMPTS : Nat := 2

/-- `SETTINGS.CACHE_TTL` from the configuration (five minutes in ms). -/
def CACHE_TTL : Nat := 5 * 60 * 1000

/-! ## Request de-duplication (source: `frontend/api-service.js`, `analyzeAudio`)

`analyzeAudio` runs synchronously from its cache check up to and including
`pendingRequests.set(cacheKey, requestPromise)` — there is no `await` in
between — so on the single-threaded event loop this prefix is atomic.  N
concurrent calls for the same key therefore execute their prefixes in some
arrival order against shared state; the model runs them in sequence, which
covers every arrival order because the callers are interchangeable.  The
cache cannot gain an entry for the key during this window: the only write
(`_addToCache`) happens in the initiator's continuation, which resumes only
after the provider settles. -/

/-- Metadata attached by `_wrapResponse`.  The provider's response carries
its own metadata object without these three fields (it is spread-preserved
and irrelevant to the claims), so they start out absent. -/
structure RespMeta where
  cached : Option Bool
  timestamp : Option Nat
  sessionId : Option Nat
  deriving DecidableEq, Repr

/-- A provider response as cached and returned by `analyzeAudio`. -/
structure ApiResponse where
  bpm : Nat
  camelot : String
  meta : RespMeta
  deriving DecidableEq, Repr

/-- The analysis payload of a response: every field except the metadata. -/
def responsePayload (r : ApiResponse) : Nat × String := (r.bpm, r.camelot)

/-- Embedding of `_wrapResponse`: spread the data and override the
`cached`, `timestamp` and `sessionId` metadata fields. -/
def wrapResponse (now sid : Nat) (r : ApiResponse) (fromCache : Bool) : ApiResponse :=
  { r with meta := { cached := some fromCache, timestamp := some now, sessionId := some sid } }

/-- How one `analyzeAudio` call left the synchronous window: it returned a
wrapped cache hit, joined the in-flight promise with the given id, or
created (initiated) the request promise with the given id. -/
inductive CallKind where
  | cacheHit
  | joined (promiseId : Nat)
  | started (promiseId : Nat)
  deriving DecidableEq, Repr

/-- Coordinator state for one cache key during the synchronous window. -/
structure CoordState where
  cacheHasKey : Bool
  pending : Option Nat
  providerCalls : Nat
  nextId : Nat
  deriving DecidableEq, Repr

/-- The state with no cached entry and no pending request for the key. -/
def initCoordState : CoordState := ⟨false, none, 0, 0⟩

/-- The atomic synchronous prefix of one `analyzeAudio` call: cache check,
pending check (`pendingRequests.get`), else create the request promise
(which invokes the provider) and register it (`pendingRequests.set`). -/
def analyzePrefix (s : CoordState) : CoordState × CallKind :=
  if s.cacheHasKey then (s, .cacheHit)
  else
    match s.pending with
    | some p => (s, .joined p)
    | none =>
      ({ s with pending := some s.nextId, providerCalls := s.providerCalls + 1,
                nextId := s.nextId + 1 },
       .started s.nextId)

/-- Run the synchronous prefixes of `n` concurrent callers. -/
def runCallers : Nat → CoordState → CoordState × List CallKind
  | 0, s => (s, [])
  | n + 1, s =>
    let (s1, k) := analyzePrefix s
    let (s2, ks) := runCallers n s1
    (s2, k :: ks)

/-- The value each caller settles with once the provider resolves with `r`:
a joiner's `analyzeAudio` promise adopts the raw request promise, while the
initiator returns `_wrapResponse(response, false)`. -/
def settleSuccess (r : ApiResponse) (now sid : Nat) : CallKind → ApiResponse
  | .cacheHit => wrapResponse now sid r true
  | .joined _ => r
  | .started _ => wrapResponse now sid r false

/-- The error each caller rejects with once the provider call rejects with
`e`: a joiner's promise adopts the shared request promise's rejection
unchanged, and the initiator's catch block rethrows the caught `error`
object itself (`throw error`), so every caller receives `e` with no
transformation on any path. -/
def settleFailure (e : ApiError) : CallKind → ApiError
  | .cacheHit => e
  | .joined _ => e
  | .started _ => e

/-! ## Cache keys (source: `frontend/api-service.js`, `_generateCacheKey`)

`btoa` is the platform's standard base64 encoder; we embed it from that
standard (RFC 4648) over the string's Latin-1 code points. -/

/-- The base64 alphabet. -/
def base64Chars : List Char :=
  "ABCDEFGHIJKLMNOPQRSTUVWXYZabcdefghijklmnopqrstuvwxyz0123456789+/".toList

/-- Character at a 6-bit index of the base64 alphabet. -/
def b64At (n : Nat) : Char := base64Chars.getD n 'A'

/-- Base64-encode a byte list, with `=` padding. -/
def btoaBytes : List Nat → List Char
  | [] => []
  | [b1] => [b64At (b1 / 4), b64At (b1 % 4 * 16), '=', '=']
  | [b1, b2] => [b64At (b1 / 4), b64At (b1 % 4 * 16 + b2 / 16), b64At (b2 % 16 * 4), '=']
  | b1 :: b2 :: b3 :: rest =>
    b64At (b1 / 4) :: b64At (b1 % 4 * 16 + b2 / 16) ::
      b64At (b2 % 16 * 4 + b3 / 64) :: b64At (b3 % 64) :: btoaBytes rest

/-- `btoa` on a Latin-1 string. -/
def btoa (s : String) : String := ⟨btoaBytes (s.data.map Char.toNat)⟩

/-- Embedding of `_generateCacheKey`: the type tag, a colon, and the first
64 characters of the base64-encoded identifier. -/
def generateCacheKey (ty identifier : String) : String :=
  ty ++ ":" ++ ⟨(btoa identifier).data.take 64⟩

/-- Modelled from the spec: `validateAudioUrl` accepts a string exactly when
the platform's `new URL` parses it with an `http:`/`https:` protocol; the
`URL` parser itself is a platform builtin absent from the sources.  We model
the clause the claims need: the scheme prefix followed by a nonempty
remainder. -/
def validAudioUrl (s : String) : Bool :=
  (List.isPrefixOf "http://".data s.data && decide (7 < s.data.length)) ||
    (List.isPrefixOf "https://".data s.data && decide (8 < s.data.length))

/-! ## Specification-side sequence builder

An independent rendering of §4.4 of the specification, worded from the
spec, to be compared with the source-side `createSequence`: at each step
compute every candidate's score, take the maximum, and append the first
candidate attaining it when it is strictly above 50; otherwise fall back
to the pool's first remaining element. -/

/-- One greedy step of the specification's `BuildSequence`. -/
def specChooseNext (last : Track) (pool : List Track) : Option (Track × List Track) :=
  match pool with
  | [] => none
  | p0 :: rest =>
    let scores := pool.map (trackPairScore last)
    let best := scores.max?.getD 0
    if 50 < best then
      let i := scores.findIdx (fun s => s == best)
      some (pool.getD i p0, pool.eraseIdx i)
    else some (p0, rest)

/-- The specification's greedy extension loop (same fuel convention as
`seqLoopFuel`: one step consumes one pool element). -/
def specLoopFuel : Nat → Track → List Track → List Track
  | 0, _, _ => []
  | fuel + 1, last, pool =>
    match specChooseNext last pool with
    | none => []
    | some (t, pool2) => t :: specLoopFuel fuel t pool2

/-- The specification's `BuildSequence`, parameterised by the energy sort
key so the claim's wording and the amended wording share the algorithm. -/
def specBuildSequenceWith (ekey : Track → ℚ) (ts : List Track) : List Track :=
  if ts.length < 2 then ts
  else
    match List.insertionSort (fun a b => ekey a ≤ ekey b) ts with
    | [] => []
    | s0 :: srest => s0 :: specLoopFuel srest.length s0 srest

/-- The claim's energy sort key: only a missing energy counts as 0.5. -/
def specEnergyKeyClaim (t : Track) : ℚ := (t.analysis.bind Analysis.energy).getD (1/2)

/-- `BuildSequence` exactly as claim C7 words it. -/
def specBuildSequenceClaim : List Track → List Track :=
  specBuildSequenceWith specEnergyKeyClaim

/-- `BuildSequence` as amended: a missing or zero energy counts as 0.5. -/
def specBuildSequenceAmended : List Track → List Track :=
  specBuildSequenceWith trackSortEnergy

/-! ## Concrete inputs used by counterexamples and witnesses -/

/-- Track A of the spec's concrete scoring scenario (bpm 128, camelot 8B,
energy 0.5, compatible keys the wheel neighbours of 8B, no loudness). -/
def analysisA : Analysis := ⟨some 128, some (1/2), none, some "8B", some ["8B", "7B", "9B", "8A", "7A", "9A"]⟩

/-- Track B of the spec's concrete scoring scenario (bpm 130, camelot 9B,
energy 0.6, no loudness). -/
def analysisB : Analysis := ⟨some 130, some (3/5), none, some "9B", some ["9B", "8B", "10B", "9A", "8A", "10A"]⟩

/-- A track whose analysis carries a literal zero energy. -/
def zeroEnergyTrack : Track := ⟨1, some ⟨none, some 0, none, none, none⟩⟩

/-- A track with energy 0.3. -/
def lowEnergyTrack : Track := ⟨2, some ⟨none, some (3/10), none, none, none⟩⟩

/-- A provider response as the analysis function returns it: its metadata
carries none of the client-side wrapper fields. -/
def sampleResponse : ApiResponse := ⟨128, "8B", ⟨none, none, none⟩⟩

/-- A 48-byte http URL prefix: two URLs sharing it share their `btoa`
encoding's first 64 characters. -/
def fluxUrlBase : String := "http://example.com/aaaaaaaaaaaaaaaaaaaaaaaaaaaaa"

/-- First colliding URL. -/
def fluxUrl1 : String := fluxUrlBase ++ "x"

/-- Second colliding URL. -/
def fluxUrl2 : String := fluxUrlBase ++ "y"

/-! ## Association-list lemmas for the cache embedding -/


theorem lookup_mapSet_self (c : Cache α) (k : String) (v : CacheEntry α) :
    (mapSet c k v).lookup k = some v := by
  unfold mapSet
  split
  case isTrue h =>
    induction c with
    | nil => simp at h
    | cons p rest ih =>
      obtain ⟨k0, v0⟩ := p
      by_cases hk : k0 = k
      · subst hk
        simp only [List.map_cons]
        rw [if_pos trivial]
        simp [List.lookup_cons]
      · have hb : (k == k0) = false := by simpa using Ne.symm hk
        simp only [List.map_cons] at *
        rw [if_neg (by simpa using hk)]
        rw [List.lookup_cons, hb] at h ⊢
        exact ih h
  case isFalse h =>
    induction c with
    | nil => simp [List.lookup_cons]
    | cons p rest ih =>
      obtain ⟨k0, v0⟩ := p
      have hb : (k == k0) = false := by
        by_contra hc
        have : k = k0 := by simpa using hc
        subst this
        simp [List.lookup_cons] at h
      simp only [List.cons_append, List.lookup_cons, hb] at h ⊢
      exact ih h

theorem lookup_mapSet_ne (c : Cache α) (k k2 : String) (v : CacheEntry α) (h : k2 ≠ k) :
    (mapSet c k v).lookup k2 = c.lookup k2 := by
  have hb : (k2 == k) = false := by simpa using h
  unfold mapSet
  split
  case isTrue hs =>
    clear hs
    induction c with
    | nil => simp
    | cons p rest ih =>
      obtain ⟨k0, v0⟩ := p
      by_cases hk : k0 = k
      · subst hk
        simp only [List.map_cons]
        rw [if_pos trivial]
        rw [List.lookup_cons, List.lookup_cons, hb]
        exact ih
      · simp only [List.map_cons]
        rw [if_neg (by simpa using hk)]
        rw [List.lookup_cons, List.lookup_cons]
        cases hb3 : (k2 == k0) with
        | true => rfl
        | false => exact ih
  case isFalse hs =>
    clear hs
    induction c with
    | nil => simp [List.lookup_cons, hb]
    | cons p rest ih =>
      obtain ⟨k0, v0⟩ := p
      simp only [List.cons_append, List.lookup_cons]
      cases hb3 : (k2 == k0) with
      | true => rfl
      | false => exact ih

theorem lookup_mapDelete_self (c : Cache α) (k : String) :
    (mapDelete c k).lookup k = none := by
  unfold mapDelete
  induction c with
  | nil => simp
  | cons p rest ih =>
    obtain ⟨k0, v0⟩ := p
    by_cases hk : k0 = k
    · subst hk
      rw [List.filter_cons, if_neg (by simp)]
      exact ih
    · rw [List.filter_cons, if_pos (by simpa using hk)]
      rw [List.lookup_cons]
      have hb : (k == k0) = false := by simpa using Ne.symm hk
      rw [hb]
      exact ih

theorem lookup_mapDelete_ne (c : Cache α) (k k2 : String) (h : k2 ≠ k) :
    (mapDelete c k).lookup k2 = c.lookup k2 := by
  unfold mapDelete
  induction c with
  | nil => simp
  | cons p rest ih =>
    obtain ⟨k0, v0⟩ := p
    by_cases hk : k0 = k
    · subst hk
      rw [List.filter_cons, if_neg (by simp)]
      rw [List.lookup_cons]
      have hb : (k2 == k0) = false := by simpa using h
      rw [hb]
      exact ih
    · rw [List.filter_cons, if_pos (by simpa using hk)]
      rw [List.lookup_cons, List.lookup_cons]
      cases hb3 : (k2 == k0) with
      | true => rfl
      | false => exact ih

theorem length_mapSet_le (c : Cache α) (k : String) (v : CacheEntry α) :
    (mapSet c k v).length ≤ c.length + 1 := by
  unfold mapSet
  split
  · simp
  · simp

theorem length_mapDelete_head_le (k0 : String) (e0 : CacheEntry α)
    (rest : List (String × CacheEntry α)) :
    (mapDelete ((k0, e0) :: rest) k0).length ≤ rest.length := by
  unfold mapDelete
  rw [List.filter_cons, if_neg (by simp)]
  exact List.length_filter_le _ _

/-! # Theorems -/

/-- Claim C2, counterexample: on the spec's concrete scenario
(A: bpm 128, camelot 8B, energy 0.5; B: bpm 130, camelot 9B, energy 0.6;
neither carrying loudness) the score is not 85 — the code defaults both
missing loudness values to −20 dB, so the loudness term contributes 10. -/
theorem score_scenario_ne_85 : calculateCompatibilityScore analysisA analysisB ≠ 85 := by
  norm_num [calculateCompatibilityScore, analysisA, analysisB, jsOr, jsRound]
  rw [abs_of_nonneg (by norm_num), max_eq_right (by norm_num)]
  norm_num [Int.floor_eq_iff]

/-- Claim C2, amended: Score(A, B) equals 95 — key 40, tempo 29.4,
energy 16, and loudness 10 (both absent loudness values default to −20,
a zero gap); 95.4 rounds to 95. -/
theorem score_scenario_eq_95 : calculateCompatibilityScore analysisA analysisB = 95 := by
  norm_num [calculateCompatibilityScore, analysisA, analysisB, jsOr, jsRound]
  rw [abs_of_nonneg (by norm_num), max_eq_right (by norm_num)]
  norm_num [Int.floor_eq_iff]

/-- Claim C3, counterexample: with the configured two retries enabled and
attempts remaining (max attempts 3 > 1), an attempt that exceeds its
deadline (`AbortError`) makes the whole request fail at once with the
timeout error after exactly one attempt — no further attempt is performed. -/
theorem timeout_not_retried_cex :
    makeApiRequest true true RETRY_ATTEMPTS (fun _ => FetchOutcome.abort (α := Unit)) =
      (.error .timeoutError, 1) ∧ 1 < RETRY_ATTEMPTS + 1 := by
  exact ⟨rfl, by norm_num [RETRY_ATTEMPTS]⟩

/-- Claim C3, amended: when the first attempt exceeds its deadline, the
request fails immediately with the timeout error and performs no further
attempts, whatever the retry option and retry budget. -/
theorem timeout_fails_fast {α : Type} (retry : Bool) (ra : Nat)
    (script : Nat → FetchOutcome α) (habort : script 0 = .abort) :
    makeApiRequest true retry ra script = (.error .timeoutError, 1) := by
  unfold makeApiRequest
  cases retry <;> simp only [if_true, if_false, Bool.false_eq_true, attemptLoop, habort]

/-- Witness for `timeout_fails_fast` at a concrete script and budget. -/
theorem timeout_fails_fast_witness :
    makeApiRequest true true 2 (fun _ => FetchOutcome.abort (α := Nat)) =
      (.error .timeoutError, 1) :=
  timeout_fails_fast true 2 (fun _ => FetchOutcome.abort) rfl

/-- Claim C4, counterexample: a provider that always returns a malformed
response is retried — with the configured two retries the request performs
all three attempts (not one) before failing with the invalid-response
error. -/
theorem malformed_retried_cex :
    makeApiRequest true true RETRY_ATTEMPTS (fun _ => FetchOutcome.malformed (α := Unit)) =
      (.error .invalidResponse, RETRY_ATTEMPTS + 1) ∧ RETRY_ATTEMPTS + 1 ≠ 1 := by
  exact ⟨rfl, by norm_num [RETRY_ATTEMPTS]⟩

/-- Malformed responses keep the retry loop going: with `n` retries allowed
and every attempt malformed, the loop performs all attempts and ends with
the invalid-response error recorded last. -/
theorem attemptLoop_all_malformed {α : Type} :
    ∀ (fuel attempt : Nat) (e : Option ApiError),
      attemptLoop (fun _ => FetchOutcome.malformed (α := α)) true attempt (fuel + 1) e =
        (.error .invalidResponse, attempt + fuel + 1) := by
  intro fuel
  induction fuel with
  | zero => intro attempt e; rfl
  | succ f ih =>
    intro attempt e
    show attemptLoop (fun _ => FetchOutcome.malformed (α := α)) true (attempt + 1) (f + 1)
        (some ApiError.invalidResponse) =
      (Except.error ApiError.invalidResponse, attempt + (f + 1) + 1)
    rw [ih (attempt + 1) (some .invalidResponse)]
    exact congrArg _ (by omega)

/-- Claim C4, amended: a malformed provider response is retried like a
transient failure; `Analyze` fails with the invalid-response error only
after exhausting every attempt (here `n` retries means `n + 1` attempts). -/
theorem malformed_retries_then_fails {α : Type} (n : Nat) :
    makeApiRequest true true n (fun _ => FetchOutcome.malformed (α := α)) =
      (.error .invalidResponse, n + 1) := by
  unfold makeApiRequest
  rw [if_pos rfl, attemptLoop_all_malformed n 0 none]
  exact congrArg _ (by omega)

/-- Claim C5, counterexample: the provider result for `hashInt = 0` has
camelot 8B (wheel position 8, letter B), and its `compatibleKeys` contains
"9A", which the claim's adjacency rule (self, same-letter ±1, paired
letter) does not derive from 8B. -/
theorem compatibleKeys_beyond_adjacency :
    providerCamelot 0 = "8B" ∧ parseCamelot "8B" = some (8, false) ∧
      "9A" ∈ providerCompatibleKeys 0 ∧ "9A" ∉ specAdjacencyKeys 8 false := by
  decide

/-- Claim C5, amended: every provider result's camelot code is one of the
ten codes 8A–12B, and its `compatibleKeys` is exactly the extended
adjacency set: the code itself, the same-letter codes one numeric step up
and down, and the paired letter with its own one-step neighbours. -/
theorem compatibleKeys_extended_adjacency (h : Nat) :
    providerCamelot h ∈ ["8B", "8A", "9B", "9A", "10B", "10A", "11B", "11A", "12B", "12A"] ∧
      (parseCamelot (providerCamelot h)).isSome = true ∧
      providerCompatibleKeys h =
        (parseCamelot (providerCamelot h)).elim [] (fun p => extendedAdjacencyKeys p.1 p.2) := by
  have hb : h % 10 < 10 := Nat.mod_lt _ (by norm_num)
  have key : ∀ r, r < 10 →
      ((providerKeys.getD r ("C", "8B")).2 ∈
          ["8B", "8A", "9B", "9A", "10B", "10A", "11B", "11A", "12B", "12A"] ∧
        (parseCamelot ((providerKeys.getD r ("C", "8B")).2)).isSome = true ∧
        ((providerCamelotWheel.lookup ((providerKeys.getD r ("C", "8B")).2)).getD
            [(providerKeys.getD r ("C", "8B")).2] =
          (parseCamelot ((providerKeys.getD r ("C", "8B")).2)).elim []
            (fun p => extendedAdjacencyKeys p.1 p.2))) := by decide
  exact key (h % 10) hb

/-- Claim C10: two distinct valid http URLs whose cache keys coincide
(the key keeps only the first 64 base64 characters, i.e. the first 48
bytes of the identifier), so an analysis cached under the first URL's key
is returned by a cache lookup for the second URL. -/
theorem cacheKey_collision :
    validAudioUrl fluxUrl1 = true ∧ validAudioUrl fluxUrl2 = true ∧ fluxUrl1 ≠ fluxUrl2 ∧
      generateCacheKey "analyze" fluxUrl1 = generateCacheKey "analyze" fluxUrl2 ∧
      (getFromCache 1000
          (addToCache MAX_CACHE_ENTRIES 500 ([] : Cache Nat)
            (generateCacheKey "analyze" fluxUrl1) 42 (some CACHE_TTL))
          (generateCacheKey "analyze" fluxUrl2)).2 = some 42 := by
  refine ⟨rfl, rfl, by decide, rfl, rfl⟩


theorem getFromCache_none {α : Type} (now : Nat) (c : Cache α) (key : String)
    (hl : c.lookup key = none) : getFromCache now c key = (c, none) := by
  unfold getFromCache
  rw [hl]

theorem getFromCache_expired {α : Type} (now texp : Nat) (c : Cache α) (key : String)
    (e : CacheEntry α) (hl : c.lookup key = some e) (he : e.expiresAt = some texp)
    (h0 : texp ≠ 0) (hlt : texp < now) : getFromCache now c key = (mapDelete c key, none) := by
  unfold getFromCache
  rw [hl]
  show (match e.expiresAt with
    | some t => if t ≠ 0 ∧ t < now then (mapDelete c key, none) else (c, some e.data)
    | none => (c, some e.data)) = (mapDelete c key, none)
  rw [he]
  show (if texp ≠ 0 ∧ texp < now then (mapDelete c key, none) else (c, some e.data)) =
    (mapDelete c key, none)
  rw [if_pos ⟨h0, hlt⟩]

theorem getFromCache_live {α : Type} (now : Nat) (c : Cache α) (key : String)
    (e : CacheEntry α) (hl : c.lookup key = some e)
    (hlive : ∀ texp, e.expiresAt = some texp → ¬(texp ≠ 0 ∧ texp < now)) :
    getFromCache now c key = (c, some e.data) := by
  unfold getFromCache
  rw [hl]
  show (match e.expiresAt with
    | some t => if t ≠ 0 ∧ t < now then (mapDelete c key, none) else (c, some e.data)
    | none => (c, some e.data)) = (c, some e.data)
  cases he : e.expiresAt with
  | none => rfl
  | some texp =>
    show (if texp ≠ 0 ∧ texp < now then (mapDelete c key, none) else (c, some e.data)) =
      (c, some e.data)
    rw [if_neg (hlive texp he)]

theorem addToCache_lookup_self {α : Type} (maxE t0 t : Nat) (c : Cache α) (key : String)
    (v : α) (ht : 0 < t) :
    (addToCache maxE t0 c key v (some t)).lookup key = some ⟨v, t0, some (t0 + t)⟩ := by
  have h : ∀ c1 : Cache α,
      (mapSet c1 key ⟨v, t0, if t ≠ 0 then some (t0 + t) else none⟩).lookup key =
        some ⟨v, t0, some (t0 + t)⟩ := by
    intro c1
    rw [if_pos (by omega)]
    exact lookup_mapSet_self _ _ _
  exact h _

/-- Claim C8: `Get` returns not-found on an absent key; a value stored with
a positive TTL `t` at time `t0` is returned by any `Get` at `now ≤ t0 + t`;
once `now` is strictly past the entry's `expiresAt = t0 + t`, `Get` returns
not-found and removes the entry from the store as a side effect. -/
theorem cache_ttl {α : Type} (maxE t0 t now : Nat) (c c2 : Cache α) (key key2 : String)
    (v : α) (ht : 0 < t) :
    (c2.lookup key2 = none → getFromCache now c2 key2 = (c2, none)) ∧
    (now ≤ t0 + t →
      (getFromCache now (addToCache maxE t0 c key v (some t)) key).2 = some v) ∧
    (t0 + t < now →
      (getFromCache now (addToCache maxE t0 c key v (some t)) key).2 = none ∧
      (getFromCache now (addToCache maxE t0 c key v (some t)) key).1.lookup key = none) := by
  have hlook := addToCache_lookup_self maxE t0 t c key v ht
  refine ⟨fun h => getFromCache_none now c2 key2 h, fun hle => ?_, fun hlt => ?_⟩
  · rw [getFromCache_live now _ key _ hlook ?hlive]
    case hlive =>
      intro texp he
      injection he with h1
      subst h1
      omega
  · rw [getFromCache_expired now (t0 + t) _ key _ hlook rfl (by omega) hlt]
    exact ⟨rfl, lookup_mapDelete_self _ _⟩

/-- Witness for `cache_ttl`: a value stored at time 100 with TTL 200 is
returned at time 250 and gone at time 350. -/
theorem cache_ttl_witness :
    (getFromCache 250 (addToCache 50 100 ([] : Cache Nat) "k" 7 (some 200)) "k").2 = some 7 ∧
    (getFromCache 350 (addToCache 50 100 ([] : Cache Nat) "k" 7 (some 200)) "k").2 = none := by
  exact ⟨(cache_ttl 50 100 200 250 [] [] "k" "k" 7 (by norm_num)).2.1 (by norm_num),
    ((cache_ttl 50 100 200 350 [] [] "k" "k" 7 (by norm_num)).2.2 (by norm_num)).1⟩

/-- Claim C9: `Put` keeps the entry count within the configured maximum;
when the store is full and the key is fresh, the oldest-inserted entry is
the one evicted (every other key's binding is preserved) and the entry
being inserted survives; and a `Get` that returns a value leaves the store
— hence the insertion order eviction is based on — unchanged (pure FIFO,
access recency irrelevant). -/
theorem cache_put_bounded_fifo {α : Type} (maxE now : Nat) (c : Cache α) (key : String)
    (v : α) (ttl : Option Nat) (k0 : String) (e0 : CacheEntry α)
    (rest : List (String × CacheEntry α)) :
    (1 ≤ maxE → c.length ≤ maxE → (addToCache maxE now c key v ttl).length ≤ maxE) ∧
    (maxE ≤ c.length → c.lookup key = none → c = (k0, e0) :: rest →
      (addToCache maxE now c key v ttl).lookup k0 = none ∧
      (∀ k2, k2 ≠ k0 → k2 ≠ key → (addToCache maxE now c key v ttl).lookup k2 = c.lookup k2) ∧
      (∃ e, (addToCache maxE now c key v ttl).lookup key = some e ∧ e.data = v)) ∧
    (∀ (now2 : Nat) (c2 : Cache α) (k2 : String),
      ((getFromCache now2 c2 k2).2).isSome = true → (getFromCache now2 c2 k2).1 = c2) := by
  refine ⟨?_, ?_, ?_⟩
  · intro h1 hle
    unfold addToCache
    by_cases hfull : maxE ≤ c.length
    · rw [if_pos hfull]
      rcases c with _ | ⟨⟨k1, v1⟩, rest1⟩
      · exact absurd (h1.trans hfull) (by norm_num)
      · calc (mapSet (mapDelete ((k1, v1) :: rest1) k1) key _).length
            ≤ (mapDelete ((k1, v1) :: rest1) k1).length + 1 := length_mapSet_le _ _ _
          _ ≤ rest1.length + 1 := by
              have := length_mapDelete_head_le k1 v1 rest1
              omega
          _ ≤ maxE := by simpa using hle
    · rw [if_neg hfull]
      calc (mapSet c key _).length ≤ c.length + 1 := length_mapSet_le _ _ _
        _ ≤ maxE := by omega
  · intro hfull hfresh hc
    subst hc
    have hk0 : key ≠ k0 := by
      intro he
      subst he
      simp [List.lookup_cons] at hfresh
    have hstep : addToCache maxE now ((k0, e0) :: rest) key v ttl =
        mapSet (mapDelete ((k0, e0) :: rest) k0) key
          ⟨v, now, match ttl with
            | some t => if t ≠ 0 then some (now + t) else none
            | none => none⟩ := by
      unfold addToCache
      rw [if_pos hfull]
    rw [hstep]
    refine ⟨?_, ?_, ?_⟩
    · rw [lookup_mapSet_ne _ _ _ _ (Ne.symm hk0)]
      exact lookup_mapDelete_self _ _
    · intro k2 h2 h3
      rw [lookup_mapSet_ne _ _ _ _ h3]
      exact lookup_mapDelete_ne _ _ _ h2
    · exact ⟨_, lookup_mapSet_self _ _ _, rfl⟩
  · intro now2 c2 k2 h
    cases hl : c2.lookup k2 with
    | none => rw [getFromCache_none now2 c2 k2 hl]
    | some e =>
      by_cases hx : ∃ texp, e.expiresAt = some texp ∧ texp ≠ 0 ∧ texp < now2
      · obtain ⟨texp, he, h0, hlt⟩ := hx
        rw [getFromCache_expired now2 texp c2 k2 e hl he h0 hlt] at h
        simp at h
      · rw [getFromCache_live now2 c2 k2 e hl (fun texp he hc => hx ⟨texp, he, hc⟩)]

/-- Witness for `cache_put_bounded_fifo`: inserting a third key into a
two-entry store of capacity two stays within bounds, evicts the oldest key
"a", and keeps the inserted key "c". -/
theorem cache_put_bounded_fifo_witness :
    (addToCache 2 10 [("a", ⟨1, 0, none⟩), ("b", ⟨2, 0, none⟩)] "c" (7 : Nat) none).length ≤ 2 ∧
    (addToCache 2 10 [("a", ⟨1, 0, none⟩), ("b", ⟨2, 0, none⟩)] "c" (7 : Nat) none).lookup "a" =
      none ∧
    (∃ e, (addToCache 2 10 [("a", ⟨1, 0, none⟩), ("b", ⟨2, 0, none⟩)] "c" (7 : Nat) none).lookup
        "c" = some e ∧ e.data = 7) := by
  have h := cache_put_bounded_fifo (α := Nat) 2 10 [("a", ⟨1, 0, none⟩), ("b", ⟨2, 0, none⟩)]
    "c" 7 none "a" ⟨1, 0, none⟩ [("b", ⟨2, 0, none⟩)]
  have hb := h.2.1 (by decide) (by decide) rfl
  exact ⟨h.1 (by decide) (by decide), hb.1, hb.2.2⟩


theorem runCallers_joined (m : Nat) (st : CoordState) (p : Nat)
    (hc : st.cacheHasKey = false) (hp : st.pending = some p) :
    runCallers m st = (st, List.replicate m (.joined p)) := by
  induction m with
  | zero => rfl
  | succ k ih =>
    have hpre : analyzePrefix st = (st, .joined p) := by
      unfold analyzePrefix
      rw [hc]
      simp only [Bool.false_eq_true, if_false, hp]
    show (let (s1, k1) := analyzePrefix st
          let (s2, ks) := runCallers k s1
          (s2, k1 :: ks)) = (st, List.replicate (k + 1) (CallKind.joined p))
    rw [hpre]
    show (match runCallers k st with
      | (s2, ks) => (s2, CallKind.joined p :: ks)) = (st, List.replicate (k + 1) (CallKind.joined p))
    rw [ih]
    rfl

/-- Claim C1, amended: with no cached entry and no pending request, N ≥ 1
concurrent `analyzeAudio` calls for one key invoke the provider exactly
once; the first (initiating) caller settles with the provider result
wrapped in fresh response metadata, every joining caller settles with the
identical raw provider result, and all N results carry the same analysis
payload; and when the provider call rejects with an error, all N callers
reject with that same error. -/
theorem dedup_single_provider_call (n : Nat) (hn : 1 ≤ n) (r : ApiResponse) (now sid : Nat) :
    (runCallers n initCoordState).1.providerCalls = 1 ∧
    (runCallers n initCoordState).2 =
      CallKind.started 0 :: List.replicate (n - 1) (.joined 0) ∧
    (runCallers n initCoordState).2.map (settleSuccess r now sid) =
      wrapResponse now sid r false :: List.replicate (n - 1) r ∧
    (∀ v ∈ (runCallers n initCoordState).2.map (settleSuccess r now sid),
      responsePayload v = responsePayload r) ∧
    (∀ e : ApiError, (runCallers n initCoordState).2.map (settleFailure e) =
      List.replicate n e) := by
  obtain ⟨m, rfl⟩ : ∃ m, n = m + 1 := ⟨n - 1, by omega⟩
  have hfirst : analyzePrefix initCoordState = (⟨false, some 0, 1, 1⟩, .started 0) := rfl
  have hrun : runCallers (m + 1) initCoordState =
      (⟨false, some 0, 1, 1⟩, CallKind.started 0 :: List.replicate m (.joined 0)) := by
    show (let (s1, k1) := analyzePrefix initCoordState
          let (s2, ks) := runCallers m s1
          (s2, k1 :: ks)) = _
    rw [hfirst]
    show (match runCallers m (⟨false, some 0, 1, 1⟩ : CoordState) with
      | (s2, ks) => (s2, CallKind.started 0 :: ks)) = _
    rw [runCallers_joined m ⟨false, some 0, 1, 1⟩ 0 rfl rfl]
  rw [hrun]
  have hmap : (CallKind.started 0 :: List.replicate m (CallKind.joined 0)).map
      (settleSuccess r now sid) = wrapResponse now sid r false :: List.replicate m r := by
    simp [settleSuccess, List.map_replicate]
  refine ⟨rfl, by simp, hmap, ?_, ?_⟩
  · intro v hv
    rw [hmap] at hv
    rcases List.mem_cons.mp hv with h | h
    · subst h; rfl
    · rw [List.eq_of_mem_replicate h]
  · intro e
    simp [settleFailure, List.map_replicate, List.replicate_succ]

/-- Claim C1, counterexample: two concurrent calls, empty cache, nothing
pending — the provider is invoked once, but the two calls settle with
different values: the initiator's result is wrapped with response metadata
(`cached: false`, timestamp, session id) while the joiner receives the raw
provider response. -/
theorem dedup_results_differ_cex :
    (runCallers 2 initCoordState).1.providerCalls = 1 ∧
    ((runCallers 2 initCoordState).2.map (settleSuccess sampleResponse 5 7)).getD 0
        sampleResponse ≠
      ((runCallers 2 initCoordState).2.map (settleSuccess sampleResponse 5 7)).getD 1
        sampleResponse := by
  decide

/-- Witness for `dedup_single_provider_call` at three concurrent callers,
exercising both the success and the failure settlement. -/
theorem dedup_single_provider_call_witness :
    (runCallers 3 initCoordState).1.providerCalls = 1 ∧
    (runCallers 3 initCoordState).2.map (settleSuccess sampleResponse 5 7) =
      wrapResponse 5 7 sampleResponse false :: List.replicate 2 sampleResponse ∧
    (runCallers 3 initCoordState).2.map (settleFailure .timeoutError) =
      List.replicate 3 ApiError.timeoutError := by
  have h := dedup_single_provider_call 3 (by norm_num) sampleResponse 5 7
  exact ⟨h.1, h.2.2.1, h.2.2.2.2 .timeoutError⟩

theorem jsRound_nonneg (q : ℚ) (hq : 0 ≤ q) : 0 ≤ jsRound q := by
  unfold jsRound
  exact Int.le_floor.mpr (by push_cast; linarith)

theorem score_nonneg (a b : Analysis) : 0 ≤ calculateCompatibilityScore a b := by
  unfold calculateCompatibilityScore
  apply jsRound_nonneg
  have h1 : (0:ℚ) ≤ 30 - |jsOr a.bpm 120 - jsOr b.bpm 120| * (3/10) ⊔ 0 ∨ True := Or.inr trivial
  refine add_nonneg (add_nonneg (add_nonneg ?_ ?_) ?_) ?_
  · split <;> norm_num
  · exact le_max_left 0 _
  · exact le_max_left 0 _
  · exact le_max_left 0 _

theorem trackPairScore_nonneg (cur c : Track) : 0 ≤ trackPairScore cur c :=
  score_nonneg _ _

theorem le_foldl_max : ∀ (l : List Int) (b : Int), b ≤ l.foldl max b := by
  intro l
  induction l with
  | nil => intro b; exact le_refl b
  | cons a l ih =>
    intro b
    calc b ≤ max b a := le_max_left b a
      _ ≤ l.foldl max (max b a) := ih (max b a)
      _ = (a :: l).foldl max b := by rw [List.foldl_cons]

theorem foldl_max_mem : ∀ (l : List Int) (b : Int), l.foldl max b = b ∨ l.foldl max b ∈ l := by
  intro l
  induction l with
  | nil => intro b; exact Or.inl rfl
  | cons a l ih =>
    intro b
    rw [List.foldl_cons]
    rcases ih (max b a) with h | h
    · rcases max_choice b a with hm | hm
      · exact Or.inl (by rw [h, hm])
      · exact Or.inr (by rw [h, hm]; exact List.mem_cons_self a l)
    · exact Or.inr (List.mem_cons_of_mem a h)

theorem findBestAux_eq (cur : Track) :
    ∀ (cs : List Track) (i : Nat) (bs bi : Int),
      findBestAux cur cs i bs bi =
        ((cs.map (trackPairScore cur)).foldl max bs,
          if bs < (cs.map (trackPairScore cur)).foldl max bs
          then (i : Int) + ((cs.map (trackPairScore cur)).findIdx
            (fun s => s == (cs.map (trackPairScore cur)).foldl max bs) : Int)
          else bi) := by
  intro cs
  induction cs with
  | nil =>
    intro i bs bi
    simp [findBestAux]
  | cons c cs ih =>
    intro i bs bi
    simp only [findBestAux]
    rw [List.map_cons, List.foldl_cons]
    by_cases hbs : bs < trackPairScore cur c
    · rw [if_pos hbs]
      rw [ih (i + 1) (trackPairScore cur c) i]
      rw [max_eq_right (le_of_lt hbs)]
      set S := cs.map (trackPairScore cur) with hS
      set s := trackPairScore cur c with hs
      have hsM : s ≤ S.foldl max s := le_foldl_max S s
      have hbsM : bs < S.foldl max s := lt_of_lt_of_le hbs hsM
      rw [if_pos hbsM]
      by_cases heq : s = S.foldl max s
      · rw [if_neg (by rw [← heq]; exact lt_irrefl s)]
        rw [List.findIdx_cons]
        rw [show (s == S.foldl max s) = true from beq_iff_eq.mpr heq]
        simp
      · have hlt : s < S.foldl max s := lt_of_le_of_ne hsM heq
        rw [if_pos hlt]
        rw [List.findIdx_cons]
        rw [show (s == S.foldl max s) = false from beq_eq_false_iff_ne.mpr heq]
        simp only [cond_false]
        congr 1
        push_cast
        ring
    · rw [if_neg hbs]
      rw [ih (i + 1) bs bi]
      set S := cs.map (trackPairScore cur) with hS
      set s := trackPairScore cur c with hs
      have hsle : s ≤ bs := le_of_not_lt hbs
      rw [max_eq_left hsle]
      by_cases hbsM : bs < S.foldl max bs
      · rw [if_pos hbsM, if_pos hbsM]
        have hne : s ≠ S.foldl max bs := by
          intro he
          exact absurd (he ▸ lt_of_le_of_lt hsle hbsM) (lt_irrefl _)
        rw [List.findIdx_cons]
        rw [show (s == S.foldl max bs) = false from beq_eq_false_iff_ne.mpr hne]
        simp only [cond_false]
        congr 1
        push_cast
        ring
      · rw [if_neg hbsM, if_neg hbsM]


theorem max_mem_scores (last p0 : Track) (rest : List Track) :
    (rest.map (trackPairScore last)).foldl max (trackPairScore last p0) ∈
      (p0 :: rest).map (trackPairScore last) := by
  rw [List.map_cons]
  rcases foldl_max_mem (rest.map (trackPairScore last)) (trackPairScore last p0) with h | h
  · rw [h]; exact List.mem_cons_self _ _
  · exact List.mem_cons_of_mem _ h

theorem findIdx_max_lt (last p0 : Track) (rest : List Track) :
    ((p0 :: rest).map (trackPairScore last)).findIdx
        (fun s => s == (rest.map (trackPairScore last)).foldl max (trackPairScore last p0)) <
      (p0 :: rest).length := by
  rw [show (p0 :: rest).length = ((p0 :: rest).map (trackPairScore last)).length from
    (List.length_map _ _).symm]
  exact List.findIdx_lt_length.mpr ⟨_, max_mem_scores last p0 rest, beq_self_eq_true _⟩

theorem findBestMatch_cons (cur p0 : Track) (rest : List Track) :
    findBestMatch cur (p0 :: rest) =
      (if 50 < (rest.map (trackPairScore cur)).foldl max (trackPairScore cur p0) then
        some ((p0 :: rest).getD (((p0 :: rest).map (trackPairScore cur)).findIdx
            (fun s => s == (rest.map (trackPairScore cur)).foldl max (trackPairScore cur p0)))
            dummyTrack,
          ((p0 :: rest).map (trackPairScore cur)).findIdx
            (fun s => s == (rest.map (trackPairScore cur)).foldl max (trackPairScore cur p0)))
      else none) := by
  have hM : ((p0 :: rest).map (trackPairScore cur)).foldl max (-1) =
      (rest.map (trackPairScore cur)).foldl max (trackPairScore cur p0) := by
    rw [List.map_cons, List.foldl_cons, max_eq_right]
    exact le_trans (by norm_num) (trackPairScore_nonneg cur p0)
  have h0M : (0:Int) ≤ (rest.map (trackPairScore cur)).foldl max (trackPairScore cur p0) :=
    le_trans (trackPairScore_nonneg cur p0) (le_foldl_max _ _)
  simp only [findBestMatch]
  rw [findBestAux_eq, hM]
  rw [if_pos (show (-1:Int) < _ by omega)]
  by_cases h50 : 50 < (rest.map (trackPairScore cur)).foldl max (trackPairScore cur p0)
  · rw [if_pos ⟨by positivity, h50⟩, if_pos h50]
    simp
  · rw [if_neg (fun hand => h50 hand.2), if_neg h50]

theorem specChooseNext_cons (last p0 : Track) (rest : List Track) :
    specChooseNext last (p0 :: rest) =
      (if 50 < (rest.map (trackPairScore last)).foldl max (trackPairScore last p0) then
        some ((p0 :: rest).getD (((p0 :: rest).map (trackPairScore last)).findIdx
            (fun s => s == (rest.map (trackPairScore last)).foldl max (trackPairScore last p0)))
            dummyTrack,
          (p0 :: rest).eraseIdx (((p0 :: rest).map (trackPairScore last)).findIdx
            (fun s => s == (rest.map (trackPairScore last)).foldl max (trackPairScore last p0))))
      else some (p0, rest)) := by
  have hgetD : (p0 :: rest).getD (((p0 :: rest).map (trackPairScore last)).findIdx
        (fun s => s == (rest.map (trackPairScore last)).foldl max (trackPairScore last p0))) p0 =
      (p0 :: rest).getD (((p0 :: rest).map (trackPairScore last)).findIdx
        (fun s => s == (rest.map (trackPairScore last)).foldl max (trackPairScore last p0)))
        dummyTrack := by
    rw [List.getD_eq_getElem _ _ (findIdx_max_lt last p0 rest),
      List.getD_eq_getElem _ _ (findIdx_max_lt last p0 rest)]
  show (if 50 < (rest.map (trackPairScore last)).foldl max (trackPairScore last p0) then
      some ((p0 :: rest).getD (((p0 :: rest).map (trackPairScore last)).findIdx
          (fun s => s == (rest.map (trackPairScore last)).foldl max (trackPairScore last p0))) p0,
        (p0 :: rest).eraseIdx (((p0 :: rest).map (trackPairScore last)).findIdx
          (fun s => s == (rest.map (trackPairScore last)).foldl max (trackPairScore last p0))))
    else some (p0, rest)) = _
  rw [hgetD]

theorem seqLoop_eq_specLoop : ∀ (fuel : Nat) (last : Track) (rem : List Track),
    seqLoopFuel fuel last rem = specLoopFuel fuel last rem := by
  intro fuel
  induction fuel with
  | zero => intro last rem; rfl
  | succ f ih =>
    intro last rem
    cases rem with
    | nil => rfl
    | cons p0 rest =>
      show (match findBestMatch last (p0 :: rest) with
        | some (t, i) => t :: seqLoopFuel f t ((p0 :: rest).eraseIdx i)
        | none => p0 :: seqLoopFuel f p0 rest) =
        (match specChooseNext last (p0 :: rest) with
        | none => []
        | some (t, pool2) => t :: specLoopFuel f t pool2)
      rw [findBestMatch_cons, specChooseNext_cons]
      by_cases h50 : 50 < (rest.map (trackPairScore last)).foldl max (trackPairScore last p0)
      · rw [if_pos h50, if_pos h50]
        exact congrArg (List.cons _) (ih _ _)
      · rw [if_neg h50, if_neg h50]
        exact congrArg (List.cons _) (ih _ _)

/-- Claim C7, amended: `createSequence` implements the claim's algorithm
with one adjustment — a missing **or zero** energy counts as 0.5 in the
sort key (JavaScript's `|| 0.5` treats 0 as falsy): fewer than two tracks
are returned unchanged; otherwise the tracks are stably sorted ascending
by that key, the lowest seeds the output, and each step appends the first
remaining candidate of maximal score against the last appended track when
that score is strictly greater than 50, otherwise the pool's first
remaining element. -/
theorem createSequence_eq_spec (ts : List Track) :
    createSequence ts = specBuildSequenceAmended ts := by
  unfold createSequence specBuildSequenceAmended specBuildSequenceWith trackSortEnergy
  by_cases hlen : ts.length < 2
  · rw [if_pos hlen, if_pos hlen]
  · rw [if_neg hlen, if_neg hlen]
    cases List.insertionSort
        (fun a b => jsOr (a.analysis.bind Analysis.energy) (1/2) ≤
          jsOr (b.analysis.bind Analysis.energy) (1/2)) ts with
    | nil => rfl
    | cons s0 srest => exact congrArg (List.cons _) (seqLoop_eq_specLoop _ _ _)


theorem getD_cons_eraseIdx_perm :
    ∀ (l : List Track) (i : Nat) (d : Track), i < l.length →
      (l.getD i d :: l.eraseIdx i).Perm l := by
  intro l
  induction l with
  | nil => intro i d h; simp at h
  | cons a as ih =>
    intro i d h
    cases i with
    | zero => simp
    | succ j =>
      rw [List.getD_cons_succ, List.eraseIdx_cons_succ]
      exact (List.Perm.swap a (as.getD j d) (as.eraseIdx j)).trans
        ((ih j d (by simpa using h)).cons a)

theorem seqLoopFuel_perm :
    ∀ (fuel : Nat) (last : Track) (rem : List Track),
      rem.length ≤ fuel → (seqLoopFuel fuel last rem).Perm rem := by
  intro fuel
  induction fuel with
  | zero =>
    intro last rem h
    rw [List.eq_nil_of_length_eq_zero (Nat.le_zero.mp h)]
    exact List.Perm.refl _
  | succ f ih =>
    intro last rem h
    cases rem with
    | nil => exact List.Perm.refl _
    | cons p0 rest =>
      show (match findBestMatch last (p0 :: rest) with
        | some (t, i) => t :: seqLoopFuel f t ((p0 :: rest).eraseIdx i)
        | none => p0 :: seqLoopFuel f p0 rest).Perm (p0 :: rest)
      rw [findBestMatch_cons]
      by_cases h50 : 50 < (rest.map (trackPairScore last)).foldl max (trackPairScore last p0)
      · rw [if_pos h50]
        have hidx := findIdx_max_lt last p0 rest
        have hlen : (((p0 :: rest)).eraseIdx
            (((p0 :: rest).map (trackPairScore last)).findIdx
              (fun s => s == (rest.map (trackPairScore last)).foldl max
                (trackPairScore last p0)))).length ≤ f := by
          rw [List.length_eraseIdx, if_pos hidx]
          simp only [List.length_cons] at h ⊢
          omega
        exact ((ih _ _ hlen).cons _).trans
          (getD_cons_eraseIdx_perm (p0 :: rest) _ dummyTrack hidx)
      · rw [if_neg h50]
        exact (ih p0 rest (by simp only [List.length_cons] at h; omega)).cons p0

/-- Claim C6: `createSequence` terminates on every input and returns a
permutation of it — same length, every input track present, no track
duplicated. -/
theorem createSequence_perm (ts : List Track) : (createSequence ts).Perm ts := by
  unfold createSequence
  by_cases hlen : ts.length < 2
  · rw [if_pos hlen]
  · rw [if_neg hlen]
    have hperm := List.perm_insertionSort
      (fun a b => trackSortEnergy a ≤ trackSortEnergy b) ts
    cases hs : List.insertionSort (fun a b => trackSortEnergy a ≤ trackSortEnergy b) ts with
    | nil =>
      rw [hs] at hperm
      have := hperm.length_eq
      simp only [List.length_nil] at this
      omega
    | cons s0 srest =>
      rw [hs] at hperm
      exact ((seqLoopFuel_perm srest.length s0 srest (le_refl _)).cons s0).trans hperm

theorem score_low_zero : trackPairScore lowEnergyTrack zeroEnergyTrack = 52 := by
  norm_num [trackPairScore, calculateCompatibilityScore, zeroEnergyTrack, lowEnergyTrack,
    emptyAnalysis, jsOr, jsRound]
  rw [abs_of_nonneg (by norm_num), max_eq_right (by norm_num)]
  norm_num [Int.floor_eq_iff]

theorem score_zero_low : trackPairScore zeroEnergyTrack lowEnergyTrack = 52 := by
  norm_num [trackPairScore, calculateCompatibilityScore, zeroEnergyTrack, lowEnergyTrack,
    emptyAnalysis, jsOr, jsRound]
  rw [abs_of_nonneg (by norm_num), max_eq_right (by norm_num)]
  norm_num [Int.floor_eq_iff]

theorem createSequence_cex_eval :
    createSequence [zeroEnergyTrack, lowEnergyTrack] = [lowEnergyTrack, zeroEnergyTrack] := by
  unfold createSequence
  rw [if_neg (by norm_num)]
  have hsort : List.insertionSort (fun a b => trackSortEnergy a ≤ trackSortEnergy b)
      [zeroEnergyTrack, lowEnergyTrack] = [lowEnergyTrack, zeroEnergyTrack] := by
    have hr : ¬ (trackSortEnergy zeroEnergyTrack ≤ trackSortEnergy lowEnergyTrack) := by
      norm_num [trackSortEnergy, zeroEnergyTrack, lowEnergyTrack, jsOr]
    simp [List.insertionSort, List.orderedInsert, hr]
  rw [hsort]
  show lowEnergyTrack :: seqLoopFuel 1 lowEnergyTrack [zeroEnergyTrack] =
    [lowEnergyTrack, zeroEnergyTrack]
  have hloop : seqLoopFuel 1 lowEnergyTrack [zeroEnergyTrack] = [zeroEnergyTrack] := by
    show (match findBestMatch lowEnergyTrack [zeroEnergyTrack] with
      | some (t, i) => t :: seqLoopFuel 0 t ([zeroEnergyTrack].eraseIdx i)
      | none => zeroEnergyTrack :: seqLoopFuel 0 zeroEnergyTrack []) = [zeroEnergyTrack]
    rw [findBestMatch_cons lowEnergyTrack zeroEnergyTrack []]
    simp [score_low_zero, List.findIdx_cons, seqLoopFuel]
  rw [hloop]

theorem specClaim_cex_eval :
    specBuildSequenceClaim [zeroEnergyTrack, lowEnergyTrack] =
      [zeroEnergyTrack, lowEnergyTrack] := by
  unfold specBuildSequenceClaim specBuildSequenceWith
  rw [if_neg (by norm_num)]
  have hsort : List.insertionSort (fun a b => specEnergyKeyClaim a ≤ specEnergyKeyClaim b)
      [zeroEnergyTrack, lowEnergyTrack] = [zeroEnergyTrack, lowEnergyTrack] := by
    have hr : specEnergyKeyClaim zeroEnergyTrack ≤ specEnergyKeyClaim lowEnergyTrack := by
      norm_num [specEnergyKeyClaim, zeroEnergyTrack, lowEnergyTrack]
    simp [List.insertionSort, List.orderedInsert, hr]
  rw [hsort]
  show zeroEnergyTrack :: specLoopFuel 1 zeroEnergyTrack [lowEnergyTrack] =
    [zeroEnergyTrack, lowEnergyTrack]
  have hloop : specLoopFuel 1 zeroEnergyTrack [lowEnergyTrack] = [lowEnergyTrack] := by
    show (match specChooseNext zeroEnergyTrack [lowEnergyTrack] with
      | none => []
      | some (t, pool2) => t :: specLoopFuel 0 t pool2) = [lowEnergyTrack]
    rw [specChooseNext_cons zeroEnergyTrack lowEnergyTrack []]
    simp [score_zero_low, List.findIdx_cons, specLoopFuel]
  rw [hloop]

/-- Claim C7, counterexample: on two tracks with energies 0 and 0.3 the
code's sequence differs from the claim's algorithm — JavaScript's
`energy || 0.5` treats the literal zero energy as missing, so the code
sorts the zero-energy track as 0.5 and seeds with the 0.3 track, while the
claim (only a *missing* energy counts as 0.5) seeds with the zero-energy
track. -/
theorem seq_zero_energy_cex :
    createSequence [zeroEnergyTrack, lowEnergyTrack] ≠
      specBuildSequenceClaim [zeroEnergyTrack, lowEnergyTrack] := by
  rw [createSequence_cex_eval, specClaim_cex_eval]
  intro he
  have hid := congrArg (fun ls => (ls.headD dummyTrack).id) he
  simp [lowEnergyTrack, zeroEnergyTrack, dummyTrack] at hid

end Flux
